import Mathlib

set_option maxRecDepth 8000

namespace MCPClient

/-- Character-level check that the first list is a leading run of the second. -/
def leadsList : List Char → List Char → Bool
  | [], _ => true
  | _ :: _, [] => false
  | a :: as, b :: bs => a == b && leadsList as bs

/-- Contiguous-occurrence check at character level, modelling String.prototype.includes. -/
def hasInfixChars (needle : List Char) : List Char → Bool
  | [] => needle.isEmpty
  | c :: rest => leadsList needle (c :: rest) || hasInfixChars needle rest

/-- hay.includes(needle) from the source, at character level. -/
def strIncludes (hay needle : String) : Bool := hasInfixChars needle.data hay.data

/-- JS toLowerCase, modelled character by character. -/
def lowerStr (s : String) : String := String.mk (s.data.map Char.toLower)

/-- JS String.prototype.split with a one-character separator, at character level. -/
def splitChars (sep : Char) : List Char → List (List Char)
  | [] => [[]]
  | c :: cs =>
    match splitChars sep cs with
    | [] => [[]]
    | h :: t => if c = sep then [] :: h :: t else (c :: h) :: t

/-- tool.name.split(sep) as used by the resolver, with the underscore separator. -/
def splitUnderscore (s : String) : List String :=
  (splitChars '_' s.data).map String.mk

/-- parts[parts.length - 1]: the final path segment of an effective name. -/
def lastSegment (s : String) : String := (splitUnderscore s).getLastD ""

structure Tool where
  name : String
  description : String
  inputSchema : String
deriving DecidableEq

/-- connectToMultipleServers: the prefixed copies of a provider's tools, name := serverType + separator + localName. -/
def prefixTools (serverType : String) (tools : List Tool) : List Tool :=
  tools.map fun t => { t with name := serverType ++ "_" ++ t.name }

/-- The catalog this.allTools after connecting to the given servers in order in multi mode: each registration appends the prefixed tools. -/
def buildCatalog : List (String × List Tool) → List Tool
  | [] => []
  | (p, ts) :: rest => prefixTools p ts ++ buildCatalog rest

/-- Strategy 1 of findToolByName: exact match against an effective name. -/
def exactMatch (tools : List Tool) (baseName : String) : Option Tool :=
  tools.find? fun t => t.name == baseName

/-- Strategy 2 of findToolByName: split each effective name on the underscore and compare the final segment with the requested name. -/
def suffixMatch (tools : List Tool) (baseName : String) : Option Tool :=
  tools.find? fun t => lastSegment t.name == baseName

/-- Strategy 3 predicate, translated from the source: tool.name.toLowerCase().includes(baseName.toLowerCase()) or baseName.toLowerCase().includes(lastSegment.toLowerCase()). -/
def flexiblePred (baseName : String) (t : Tool) : Bool :=
  strIncludes (lowerStr t.name) (lowerStr baseName) ||
  strIncludes (lowerStr baseName) (lowerStr (lastSegment t.name))

/-- Strategy 3 of findToolByName. -/
def flexibleMatch (tools : List Tool) (baseName : String) : Option Tool :=
  tools.find? (flexiblePred baseName)

/-- findToolByName: the three strategies in order; none when all fail. -/
def findToolByName (tools : List Tool) (baseName : String) : Option String :=
  match exactMatch tools baseName with
  | some t => some t.name
  | none =>
    match suffixMatch tools baseName with
    | some t => some t.name
    | none =>
      match flexibleMatch tools baseName with
      | some t => some t.name
      | none => none

/-- Modelled from the spec: the flexible-strategy predicate as the spec words it, requested name a case-insensitive substring of the final segment, or the final segment a case-insensitive substring of the requested name. -/
def flexiblePredSpec (baseName : String) (t : Tool) : Bool :=
  strIncludes (lowerStr (lastSegment t.name)) (lowerStr baseName) ||
  strIncludes (lowerStr baseName) (lowerStr (lastSegment t.name))

/-- Amended wording of the flexible-strategy predicate: the first disjunct tests the requested name against the whole effective name, provider prefix included. -/
def flexiblePredAmended (baseName : String) (t : Tool) : Bool :=
  strIncludes (lowerStr t.name) (lowerStr baseName) ||
  strIncludes (lowerStr baseName) (lowerStr (lastSegment t.name))

inductive Mode
  | single
  | multi
deriving DecidableEq

structure ToolResult where
  content : String
deriving DecidableEq

inductive CallError
  | noClientConnected
  | invalidFormat (toolName : String)
  | providerNotFound (serverType : String)
  | thrown (msg : String)
deriving DecidableEq

/-- error.message for each modelled throw site of callTool, matching the source strings. -/
def errMessage : CallError → String
  | .noClientConnected => "No client connected"
  | .invalidFormat n => "Invalid tool name format: " ++ n
  | .providerNotFound sv => "No client found for server type: " ++ sv
  | .thrown m => m

/-- toolName.indexOf of the underscore, at character level. -/
def firstSepIdx : List Char → Option Nat
  | [] => none
  | c :: cs => if c = '_' then some 0 else (firstSepIdx cs).map (· + 1)

/-- The first-underscore split of callTool: substring(0, i) and substring(i + 1), none when the separator is absent. -/
def splitToolName (toolName : String) : Option (String × String) :=
  match firstSepIdx toolName.data with
  | none => none
  | some i => some (String.mk (toolName.data.take i), String.mk (toolName.data.drop (i + 1)))

/-- callTool, with provider invocation abstracted by invoke; clients is the key set of this.mcpClients. -/
def callTool (mode : Mode) (clients : List String)
    (invoke : String → String → String → ToolResult)
    (toolName args : String) : Except CallError ToolResult :=
  match mode with
  | .single =>
    if "default" ∈ clients then .ok (invoke "default" toolName args)
    else .error .noClientConnected
  | .multi =>
    match splitToolName toolName with
    | none => .error (.invalidFormat toolName)
    | some (serverType, actualToolName) =>
      if serverType ∈ clients then .ok (invoke serverType actualToolName args)
      else .error (.providerNotFound serverType)

inductive Turn
  | userText (text : String)
  | assistantText (text : String)
  | assistantToolUse (id name args : String)
  | toolResult (toolUseId content : String) (isError : Bool)
deriving DecidableEq

inductive Block
  | text (text : String)
  | toolUse (id name args : String)
deriving DecidableEq

structure QState where
  history : List Turn
  buffer : String
deriving DecidableEq

/-- One content block of a model response, processed as in the for-loop of processQuery. -/
def processBlock (tools : List Tool)
    (dispatch : String → String → Except CallError ToolResult)
    (s : QState) : Block → QState
  | .text t =>
    { history := s.history ++ [Turn.assistantText t], buffer := s.buffer ++ t ++ "\n" }
  | .toolUse id name args =>
    match findToolByName tools name with
    | none =>
      { history := s.history ++ [Turn.toolResult id ("Error: Tool " ++ name ++ " not found") true],
        buffer := s.buffer ++ "[Error: Tool " ++ name ++ " not found]\n" }
    | some fullToolName =>
      let s1 : QState := { s with history := s.history ++ [Turn.assistantToolUse id name args] }
      match dispatch fullToolName args with
      | .ok result =>
        { history := s1.history ++ [Turn.toolResult id result.content false],
          buffer := s1.buffer ++ "[Used tool: " ++ fullToolName ++ "]\n" }
      | .error e =>
        { history := s1.history ++ [Turn.toolResult id ("Error: " ++ errMessage e) true],
          buffer := s1.buffer ++ "[Tool error: " ++ errMessage e ++ "]\n" }

/-- The for-loop over response.content. -/
def processBlocks (tools : List Tool)
    (dispatch : String → String → Except CallError ToolResult)
    (s : QState) (blocks : List Block) : QState :=
  blocks.foldl (processBlock tools dispatch) s

/-- toolUseDetected after one round: some block is a tool-use block. -/
def hasToolUse (blocks : List Block) : Bool :=
  blocks.any fun b => match b with | .toolUse _ _ _ => true | _ => false

structure RunResult where
  state : QState
  modelError : Option String
  rounds : Nat
deriving DecidableEq

/-- The while-loop of processQuery; fuel is maxIterations minus the iterations already run, rounds counts model calls made. -/
def runLoop (model : List Turn → Except String (List Block)) (tools : List Tool)
    (dispatch : String → String → Except CallError ToolResult) :
    Nat → QState → RunResult
  | 0, s => ⟨s, none, 0⟩
  | fuel + 1, s =>
    match model s.history with
    | .error e => ⟨s, some e, 1⟩
    | .ok blocks =>
      let s1 := processBlocks tools dispatch s blocks
      if hasToolUse blocks then
        if fuel = 0 then
          ⟨{ s1 with buffer := s1.buffer ++ "Maximum tool iterations reached." }, none, 1⟩
        else
          let r := runLoop model tools dispatch fuel s1
          ⟨r.state, r.modelError, r.rounds + 1⟩
      else ⟨s1, none, 1⟩

/-- processQuery: append the user turn, run at most 3 iterations, and surface a model failure as a plain-text error string while keeping the history. -/
def processQuery (model : List Turn → Except String (List Block)) (tools : List Tool)
    (dispatch : String → String → Except CallError ToolResult)
    (query : String) (history0 : List Turn) : String × List Turn :=
  let r := runLoop model tools dispatch 3 { history := history0 ++ [Turn.userText query], buffer := "" }
  match r.modelError with
  | none => (r.state.buffer, r.state.history)
  | some e => ("Sorry, I encountered an error: " ++ e, r.state.history)

structure ClientState (Handle Transport : Type) where
  mcpClients : List (String × Handle)
  transports : List (String × Transport)
  allTools : List Tool
  conversationHistory : List Turn
  mode : Mode
deriving DecidableEq

inductive ChatAction (Handle Transport : Type)
  | quit
  | continueWith (s : ClientState Handle Transport)
  | runQuery (q : String)
deriving DecidableEq

/-- The command dispatch of chatLoop on one input line; the clear branch is the single assignment this.conversationHistory = []. -/
def chatStep {H T : Type} (s : ClientState H T) (message : String) : ChatAction H T :=
  if lowerStr message = "quit" then .quit
  else if lowerStr message = "clear" then
    .continueWith { s with conversationHistory := [] }
  else if lowerStr message = "tools" then .continueWith s
  else if lowerStr message = "mode" then .continueWith s
  else if lowerStr message = "history" then .continueWith s
  else if lowerStr message = "history_full" then .continueWith s
  else .runQuery message

theorem str_data_append (a b : String) : (a ++ b).data = a.data ++ b.data := rfl

theorem str_data_inj {a b : String} (h : a.data = b.data) : a = b := by
  cases a
  cases b
  exact congrArg String.mk h

theorem str_mk_data (s : String) : String.mk s.data = s := rfl

theorem underscore_data : ("_" : String).data = ['_'] := rfl

theorem sep_data (p t : String) : (p ++ "_" ++ t).data = p.data ++ '_' :: t.data := by
  rw [str_data_append, str_data_append, underscore_data, List.append_assoc]
  rfl

theorem splitChars_cons (sep c : Char) (cs : List Char) :
    splitChars sep (c :: cs) =
      match splitChars sep cs with
      | [] => [[]]
      | h :: t => if c = sep then [] :: h :: t else (c :: h) :: t := rfl

theorem splitChars_ne_nil (sep : Char) (l : List Char) : splitChars sep l ≠ [] := by
  cases l with
  | nil => simp [splitChars]
  | cons c cs =>
    rw [splitChars_cons]
    cases h : splitChars sep cs with
    | nil => simp
    | cons a as =>
      by_cases hc : c = sep <;> simp [hc]

theorem splitChars_no_sep {sep : Char} : ∀ {l : List Char}, sep ∉ l → splitChars sep l = [l] := by
  intro l
  induction l with
  | nil => intro _; rfl
  | cons c cs ih =>
    intro h
    have hc : c ≠ sep := fun he => h (he ▸ List.mem_cons_self c cs)
    have hcs : sep ∉ cs := fun hm => h (List.mem_cons_of_mem _ hm)
    rw [splitChars_cons, ih hcs]
    simp [hc]

theorem splitChars_sep_len (sep : Char) :
    ∀ (l1 l2 : List Char), 2 ≤ (splitChars sep (l1 ++ sep :: l2)).length := by
  intro l1
  induction l1 with
  | nil =>
    intro l2
    rw [List.nil_append, splitChars_cons]
    cases h : splitChars sep l2 with
    | nil => exact absurd h (splitChars_ne_nil sep l2)
    | cons a as => simp
  | cons c l1' ih =>
    intro l2
    rw [List.cons_append, splitChars_cons]
    cases h : splitChars sep (l1' ++ sep :: l2) with
    | nil => exact absurd h (splitChars_ne_nil _ _)
    | cons a as =>
      have hlen := ih l2
      rw [h] at hlen
      simp only [List.length_cons] at hlen
      by_cases hc : c = sep <;> simp [hc] <;> omega

theorem splitChars_getLast?_append {sep : Char} :
    ∀ (l1 l2 : List Char),
      (splitChars sep (l1 ++ sep :: l2)).getLast? = (splitChars sep l2).getLast? := by
  intro l1
  induction l1 with
  | nil =>
    intro l2
    rw [List.nil_append, splitChars_cons]
    cases h : splitChars sep l2 with
    | nil => exact absurd h (splitChars_ne_nil _ _)
    | cons a as => simp
  | cons c l1' ih =>
    intro l2
    rw [List.cons_append, splitChars_cons]
    cases h : splitChars sep (l1' ++ sep :: l2) with
    | nil => exact absurd h (splitChars_ne_nil _ _)
    | cons a as =>
      have hlen := splitChars_sep_len sep l1' l2
      rw [h] at hlen
      simp only [List.length_cons] at hlen
      cases as with
      | nil => simp at hlen
      | cons b bs =>
        have hih := ih l2
        rw [h] at hih
        by_cases hc : c = sep <;> simp_all

theorem lastSegment_sep (p t : String) (h : '_' ∉ t.data) :
    lastSegment (p ++ "_" ++ t) = t := by
  unfold lastSegment splitUnderscore
  rw [sep_data, List.getLastD_eq_getLast?, List.getLast?_map,
    splitChars_getLast?_append, splitChars_no_sep h]
  simp [str_mk_data]

theorem take_drop_sep :
    ∀ (l1 : List Char) (c : Char) (l2 : List Char),
      (l1 ++ c :: l2).take l1.length = l1 ∧ (l1 ++ c :: l2).drop (l1.length + 1) = l2 := by
  intro l1 c l2
  induction l1 with
  | nil => simp
  | cons a l1' ih => simpa using ih

theorem firstSepIdx_append (l1 l2 : List Char) (h : '_' ∉ l1) :
    firstSepIdx (l1 ++ '_' :: l2) = some l1.length := by
  induction l1 with
  | nil => simp [firstSepIdx]
  | cons c cs ih =>
    have hc : c ≠ '_' := fun he => h (he ▸ List.mem_cons_self c cs)
    have hcs : '_' ∉ cs := fun hm => h (List.mem_cons_of_mem _ hm)
    simp [firstSepIdx, hc, ih hcs]

theorem splitToolName_sep (p t : String) (hp : '_' ∉ p.data) :
    splitToolName (p ++ "_" ++ t) = some (p, t) := by
  unfold splitToolName
  rw [sep_data, firstSepIdx_append _ _ hp]
  have h2 := take_drop_sep p.data '_' t.data
  simp only [h2.1, h2.2, str_mk_data]

theorem append_sep_chars_inj :
    ∀ {p q t u : List Char}, '_' ∉ p → '_' ∉ q →
      p ++ '_' :: t = q ++ '_' :: u → p = q ∧ t = u := by
  intro p
  induction p with
  | nil =>
    intro q t u _ hq h
    cases q with
    | nil => simpa using h
    | cons b bs =>
      simp only [List.nil_append, List.cons_append, List.cons.injEq] at h
      exact absurd (h.1 ▸ List.mem_cons_self b bs) hq
  | cons a as ih =>
    intro q t u hp hq h
    cases q with
    | nil =>
      simp only [List.nil_append, List.cons_append, List.cons.injEq] at h
      exact absurd (h.1.symm ▸ List.mem_cons_self a as) hp
    | cons b bs =>
      simp only [List.cons_append, List.cons.injEq] at h
      have hp' : '_' ∉ as := fun hm => hp (List.mem_cons_of_mem _ hm)
      have hq' : '_' ∉ bs := fun hm => hq (List.mem_cons_of_mem _ hm)
      obtain ⟨h1, h2⟩ := ih hp' hq' h.2
      exact ⟨by rw [h.1, h1], h2⟩

theorem append_sep_inj {p q t u : String} (hp : '_' ∉ p.data) (hq : '_' ∉ q.data)
    (h : p ++ "_" ++ t = q ++ "_" ++ u) : p = q ∧ t = u := by
  have hd := congrArg String.data h
  rw [sep_data, sep_data] at hd
  obtain ⟨h1, h2⟩ := append_sep_chars_inj hp hq hd
  exact ⟨str_data_inj h1, str_data_inj h2⟩

theorem append_sep_left_cancel {p t u : String} (h : p ++ "_" ++ t = p ++ "_" ++ u) : t = u := by
  have hd := congrArg String.data h
  rw [sep_data, sep_data] at hd
  have := List.append_cancel_left hd
  simp only [List.cons.injEq, true_and] at this
  exact str_data_inj this

theorem buildCatalog_cons (p : String) (ts : List Tool) (rest : List (String × List Tool)) :
    buildCatalog ((p, ts) :: rest) = prefixTools p ts ++ buildCatalog rest := rfl

theorem mem_buildCatalog :
    ∀ {servers : List (String × List Tool)} {p : String} {ts : List Tool},
      (p, ts) ∈ servers → ∀ {t : Tool}, t ∈ ts →
      ({ t with name := p ++ "_" ++ t.name } : Tool) ∈ buildCatalog servers := by
  intro servers
  induction servers with
  | nil => intro p ts hmem; cases hmem
  | cons pr rest ih =>
    intro p ts hmem t ht
    obtain ⟨pp, tss⟩ := pr
    rcases List.mem_cons.mp hmem with he | hm
    · injection he with h1 h2
      subst h1
      subst h2
      rw [buildCatalog_cons]
      exact List.mem_append_left _ (List.mem_map_of_mem _ ht)
    · rw [buildCatalog_cons]
      exact List.mem_append_right _ (ih hm ht)

theorem buildCatalog_name_mem :
    ∀ {servers : List (String × List Tool)} {x : Tool}, x ∈ buildCatalog servers →
      ∃ pr, pr ∈ servers ∧ ∃ t, t ∈ pr.2 ∧ x.name = pr.1 ++ "_" ++ t.name := by
  intro servers
  induction servers with
  | nil => intro x h; cases h
  | cons pr rest ih =>
    intro x h
    obtain ⟨pp, tss⟩ := pr
    rw [buildCatalog_cons] at h
    rcases List.mem_append.mp h with h1 | h2
    · obtain ⟨t, ht, he⟩ := List.mem_map.mp h1
      exact ⟨(pp, tss), List.mem_cons_self _ _, t, ht, by rw [← he]⟩
    · obtain ⟨pr', hpr', t, ht, he⟩ := ih h2
      exact ⟨pr', List.mem_cons_of_mem _ hpr', t, ht, he⟩

theorem buildCatalog_mem_sep {servers : List (String × List Tool)} {x : Tool}
    (h : x ∈ buildCatalog servers) : '_' ∈ x.name.data := by
  obtain ⟨pr, _, t, _, hn⟩ := buildCatalog_name_mem h
  rw [hn, sep_data]
  exact List.mem_append_right _ (List.mem_cons_self _ _)

theorem exactMatch_eq_none {tools : List Tool} {n : String}
    (h : ∀ t ∈ tools, t.name ≠ n) : exactMatch tools n = none := by
  unfold exactMatch
  rw [List.find?_eq_none]
  intro t ht
  simp [h t ht]

theorem suffixMatch_some_spec {tools : List Tool} {n : String} {e : Tool}
    (hfind : suffixMatch tools n = some e) : e ∈ tools ∧ lastSegment e.name = n := by
  unfold suffixMatch at hfind
  refine ⟨List.mem_of_find?_eq_some hfind, ?_⟩
  have := List.find?_some hfind
  simpa using this

theorem suffixMatch_exists {tools : List Tool} {n : String} (e : Tool)
    (he : e ∈ tools) (hseg : lastSegment e.name = n) :
    ∃ r, suffixMatch tools n = some r := by
  unfold suffixMatch
  cases hf : List.find? (fun t => lastSegment t.name == n) tools with
  | some r => exact ⟨r, rfl⟩
  | none =>
    rw [List.find?_eq_none] at hf
    have := hf e he
    simp [hseg] at this

theorem processBlocks_cons (tools : List Tool)
    (dispatch : String → String → Except CallError ToolResult)
    (s : QState) (b : Block) (rest : List Block) :
    processBlocks tools dispatch s (b :: rest) =
      processBlocks tools dispatch (processBlock tools dispatch s b) rest := rfl

theorem processBlock_history (tools : List Tool)
    (dispatch : String → String → Except CallError ToolResult)
    (s : QState) (b : Block) :
    ∃ tail, (processBlock tools dispatch s b).history = s.history ++ tail := by
  cases b with
  | text t => exact ⟨[Turn.assistantText t], rfl⟩
  | toolUse id name args =>
    cases hf : findToolByName tools name with
    | none =>
      exact ⟨[Turn.toolResult id ("Error: Tool " ++ name ++ " not found") true],
        by simp [processBlock, hf]⟩
    | some full =>
      cases hd : dispatch full args with
      | ok r =>
        exact ⟨[Turn.assistantToolUse id name args, Turn.toolResult id r.content false],
          by simp [processBlock, hf, hd]⟩
      | error e =>
        exact ⟨[Turn.assistantToolUse id name args,
            Turn.toolResult id ("Error: " ++ errMessage e) true],
          by simp [processBlock, hf, hd]⟩

theorem processBlocks_history (tools : List Tool)
    (dispatch : String → String → Except CallError ToolResult) :
    ∀ (blocks : List Block) (s : QState),
      ∃ tail, (processBlocks tools dispatch s blocks).history = s.history ++ tail := by
  intro blocks
  induction blocks with
  | nil => intro s; exact ⟨[], by simp [processBlocks]⟩
  | cons b rest ih =>
    intro s
    obtain ⟨t1, h1⟩ := processBlock_history tools dispatch s b
    obtain ⟨t2, h2⟩ := ih (processBlock tools dispatch s b)
    refine ⟨t1 ++ t2, ?_⟩
    rw [processBlocks_cons, h2, h1, List.append_assoc]

theorem runLoop_history (model : List Turn → Except String (List Block)) (tools : List Tool)
    (dispatch : String → String → Except CallError ToolResult) :
    ∀ (fuel : Nat) (s : QState),
      ∃ tail, (runLoop model tools dispatch fuel s).state.history = s.history ++ tail := by
  intro fuel
  induction fuel with
  | zero => intro s; exact ⟨[], by simp [runLoop]⟩
  | succ f ih =>
    intro s
    cases hm : model s.history with
    | error e => exact ⟨[], by simp [runLoop, hm]⟩
    | ok blocks =>
      obtain ⟨t1, h1⟩ := processBlocks_history tools dispatch blocks s
      by_cases htu : hasToolUse blocks
      · by_cases hf : f = 0
        · exact ⟨t1, by simp [runLoop, hm, htu, hf, h1]⟩
        · obtain ⟨t2, h2⟩ := ih (processBlocks tools dispatch s blocks)
          refine ⟨t1 ++ t2, ?_⟩
          simp only [runLoop, hm, htu, hf]
          simp [h2, h1, List.append_assoc]
      · exact ⟨t1, by simp [runLoop, hm, htu, h1]⟩

theorem runLoop_rounds_le (model : List Turn → Except String (List Block)) (tools : List Tool)
    (dispatch : String → String → Except CallError ToolResult) :
    ∀ (fuel : Nat) (s : QState), (runLoop model tools dispatch fuel s).rounds ≤ fuel := by
  intro fuel
  induction fuel with
  | zero => intro s; simp [runLoop]
  | succ f ih =>
    intro s
    cases hm : model s.history with
    | error e => simp [runLoop, hm]
    | ok blocks =>
      by_cases htu : hasToolUse blocks
      · by_cases hf : f = 0
        · simp [runLoop, hm, htu, hf]
        · have hr := ih (processBlocks tools dispatch s blocks)
          simp only [runLoop, hm, htu, hf]
          simp only [if_true, if_false, ite_false, ite_true]
          omega
      · simp [runLoop, hm, htu]

theorem runLoop_ok_of_model_ok (model : List Turn → Except String (List Block))
    (tools : List Tool) (dispatch : String → String → Except CallError ToolResult)
    (hm : ∀ h, ∃ bs, model h = Except.ok bs) :
    ∀ (fuel : Nat) (s : QState), (runLoop model tools dispatch fuel s).modelError = none := by
  intro fuel
  induction fuel with
  | zero => intro s; simp [runLoop]
  | succ f ih =>
    intro s
    obtain ⟨bs, hbs⟩ := hm s.history
    by_cases htu : hasToolUse bs
    · by_cases hf : f = 0
      · simp [runLoop, hbs, htu, hf]
      · simp [runLoop, hbs, htu, hf, ih]
    · simp [runLoop, hbs, htu]

theorem runLoop_error_state (model : List Turn → Except String (List Block)) (tools : List Tool)
    (dispatch : String → String → Except CallError ToolResult) :
    ∀ (fuel : Nat) (s : QState) (e : String),
      (runLoop model tools dispatch fuel s).modelError = some e →
      model (runLoop model tools dispatch fuel s).state.history = Except.error e := by
  intro fuel
  induction fuel with
  | zero => intro s e h; simp [runLoop] at h
  | succ f ih =>
    intro s e h
    cases hm : model s.history with
    | error e' =>
      have heq : runLoop model tools dispatch (f + 1) s = ⟨s, some e', 1⟩ := by
        simp [runLoop, hm]
      rw [heq] at h ⊢
      simp only [Option.some.injEq] at h
      subst h
      exact hm
    | ok blocks =>
      by_cases htu : hasToolUse blocks
      · by_cases hf : f = 0
        · have heq : (runLoop model tools dispatch (f + 1) s).modelError = none := by
            simp [runLoop, hm, htu, hf]
          rw [heq] at h
          cases h
        · have heq : runLoop model tools dispatch (f + 1) s =
              ⟨(runLoop model tools dispatch f (processBlocks tools dispatch s blocks)).state,
               (runLoop model tools dispatch f (processBlocks tools dispatch s blocks)).modelError,
               (runLoop model tools dispatch f (processBlocks tools dispatch s blocks)).rounds + 1⟩ := by
            simp [runLoop, hm, htu, hf]
          rw [heq] at h ⊢
          exact ih (processBlocks tools dispatch s blocks) e h
      · have heq : (runLoop model tools dispatch (f + 1) s).modelError = none := by
          simp [runLoop, hm, htu]
        rw [heq] at h
        cases h

theorem firstSepIdx_none : ∀ {l : List Char}, '_' ∉ l → firstSepIdx l = none := by
  intro l
  induction l with
  | nil => intro _; rfl
  | cons c cs ih =>
    intro h
    have hc : c ≠ '_' := fun he => h (he ▸ List.mem_cons_self c cs)
    have hcs : '_' ∉ cs := fun hm => h (List.mem_cons_of_mem _ hm)
    simp [firstSepIdx, hc, ih hcs]

/-- C5: in multi-provider mode, callTool splits the effective name on the first occurrence of the underscore separator only, so a local name that itself contains the separator is recovered intact; it invokes the provider registered under the recovered provider id with the recovered local name, and fails with a provider-not-found error when no provider is registered under that id. -/
theorem C5_multi_dispatch_first_split (clients : List String)
    (invoke : String → String → String → ToolResult) (p t args : String)
    (hp : '_' ∉ p.data) :
    splitToolName (p ++ "_" ++ t) = some (p, t)
    ∧ (p ∈ clients →
        callTool Mode.multi clients invoke (p ++ "_" ++ t) args = Except.ok (invoke p t args))
    ∧ (p ∉ clients →
        callTool Mode.multi clients invoke (p ++ "_" ++ t) args =
          Except.error (CallError.providerNotFound p)) := by
  have hs := splitToolName_sep p t hp
  refine ⟨hs, ?_, ?_⟩
  · intro hmem
    simp [callTool, hs, hmem]
  · intro hmem
    simp [callTool, hs, hmem]

/-- C5 witness: provider filesystem, local name write_file (which itself contains the separator), with and without a registered client. -/
theorem C5_multi_dispatch_first_split_witness :
    splitToolName ("filesystem" ++ "_" ++ "write_file") = some ("filesystem", "write_file")
    ∧ callTool Mode.multi ["filesystem"] (fun sv ln a => ⟨sv ++ ":" ++ ln ++ ":" ++ a⟩)
        ("filesystem" ++ "_" ++ "write_file") "x"
        = Except.ok ⟨"filesystem" ++ ":" ++ "write_file" ++ ":" ++ "x"⟩
    ∧ callTool Mode.multi [] (fun sv ln a => ⟨sv ++ ":" ++ ln ++ ":" ++ a⟩)
        ("filesystem" ++ "_" ++ "write_file") "x"
        = Except.error (CallError.providerNotFound "filesystem") := by
  have h1 := C5_multi_dispatch_first_split ["filesystem"]
    (fun sv ln a => ⟨sv ++ ":" ++ ln ++ ":" ++ a⟩) "filesystem" "write_file" "x" (by decide)
  have h2 := C5_multi_dispatch_first_split []
    (fun sv ln a => ⟨sv ++ ":" ++ ln ++ ":" ++ a⟩) "filesystem" "write_file" "x" (by decide)
  exact ⟨h1.1, h1.2.1 (by decide), h2.2.2 (by decide)⟩

/-- C9: in multi-provider mode an effective name containing no separator never reaches a provider: callTool fails with the invalid-tool-name-format error; when the loop dispatches such a resolved name it appends the request turn and a single error outcome and continues with the remaining blocks; and the loop's fatal path occurs only on a model failure, never on a dispatch failure. -/
theorem C9_invalid_format_per_call (clients : List String)
    (invoke : String → String → String → ToolResult) (toolName args : String)
    (hsep : '_' ∉ toolName.data) :
    callTool Mode.multi clients invoke toolName args
      = Except.error (CallError.invalidFormat toolName)
    ∧ (∀ (tools : List Tool) (s : QState) (id reqName : String) (rest : List Block),
        findToolByName tools reqName = some toolName →
        processBlocks tools (callTool Mode.multi clients invoke) s
            (Block.toolUse id reqName args :: rest)
          = processBlocks tools (callTool Mode.multi clients invoke)
              { history := s.history ++ [Turn.assistantToolUse id reqName args,
                  Turn.toolResult id
                    ("Error: " ++ errMessage (CallError.invalidFormat toolName)) true],
                buffer := s.buffer
                  ++ "[Tool error: " ++ errMessage (CallError.invalidFormat toolName) ++ "]\n" }
              rest)
    ∧ (∀ (tools : List Tool) (model : List Turn → Except String (List Block))
          (fuel : Nat) (s' : QState),
        (∀ hst, ∃ bs, model hst = Except.ok bs) →
        (runLoop model tools (callTool Mode.multi clients invoke) fuel s').modelError = none) := by
  have hsplit : splitToolName toolName = none := by
    unfold splitToolName
    rw [firstSepIdx_none hsep]
  have hcall : callTool Mode.multi clients invoke toolName args
      = Except.error (CallError.invalidFormat toolName) := by
    simp [callTool, hsplit]
  refine ⟨hcall, ?_, ?_⟩
  · intro tools s id reqName rest hfind
    rw [processBlocks_cons]
    congr 1
    simp [processBlock, hfind, hcall]
  · intro tools model fuel s' hm
    exact runLoop_ok_of_model_ok model tools _ hm fuel s'

/-- C2 counterexample: the local name write_file contains the separator, so its prefixed effective name splits into three segments and the final segment is "file"; the suffix strategy therefore does not match the bare name, and resolution returns the effective name only through the flexible strategy. -/
theorem C2_counterexample :
    suffixMatch (buildCatalog [("filesystem", [⟨"write_file", "", ""⟩])]) "write_file" = none
    ∧ findToolByName (buildCatalog [("filesystem", [⟨"write_file", "", ""⟩])]) "write_file"
        = some "filesystem_write_file"
    ∧ lastSegment "filesystem_write_file" = "file" := by
  decide

/-- C2 amended: registering provider p's local tool t in multi mode puts effective name p plus separator plus t in the catalog; and when t contains no separator and every catalog entry whose final segment equals t carries exactly that effective name, resolve(t) on the bare name returns it via the suffix strategy (the exact strategy cannot fire because every multi-mode effective name contains the separator and t does not). -/
theorem C2_register_and_suffix_resolve
    (servers : List (String × List Tool)) (p : String) (ts : List Tool) (tl : Tool)
    (hmem : (p, ts) ∈ servers) (htl : tl ∈ ts) (hsep : '_' ∉ tl.name.data)
    (huniq : ∀ e ∈ buildCatalog servers, lastSegment e.name = tl.name →
      e.name = p ++ "_" ++ tl.name) :
    (∃ e ∈ buildCatalog servers, e.name = p ++ "_" ++ tl.name)
    ∧ exactMatch (buildCatalog servers) tl.name = none
    ∧ (∃ e, suffixMatch (buildCatalog servers) tl.name = some e
        ∧ e.name = p ++ "_" ++ tl.name)
    ∧ findToolByName (buildCatalog servers) tl.name = some (p ++ "_" ++ tl.name) := by
  have hin : ({ tl with name := p ++ "_" ++ tl.name } : Tool) ∈ buildCatalog servers :=
    mem_buildCatalog hmem htl
  have hname : ({ tl with name := p ++ "_" ++ tl.name } : Tool).name = p ++ "_" ++ tl.name := rfl
  have hex : exactMatch (buildCatalog servers) tl.name = none := by
    apply exactMatch_eq_none
    intro t ht he
    have hm := buildCatalog_mem_sep ht
    rw [he] at hm
    exact hsep hm
  have hseg : lastSegment ({ tl with name := p ++ "_" ++ tl.name } : Tool).name = tl.name := by
    rw [hname]
    exact lastSegment_sep p tl.name hsep
  obtain ⟨r, hr⟩ := suffixMatch_exists _ hin hseg
  obtain ⟨hrmem, hrseg⟩ := suffixMatch_some_spec hr
  have hrname : r.name = p ++ "_" ++ tl.name := huniq r hrmem hrseg
  refine ⟨⟨_, hin, hname⟩, hex, ⟨r, hr, hrname⟩, ?_⟩
  simp [findToolByName, hex, hr, hrname]

/-- C2 witness: provider filesystem with separator-free local name write; the suffix strategy resolves the bare name to the prefixed effective name. -/
theorem C2_register_and_suffix_resolve_witness :
    (∃ e ∈ buildCatalog [("filesystem", [⟨"write", "d", "s"⟩])],
        e.name = "filesystem" ++ "_" ++ "write")
    ∧ exactMatch (buildCatalog [("filesystem", [⟨"write", "d", "s"⟩])]) "write" = none
    ∧ (∃ e, suffixMatch (buildCatalog [("filesystem", [⟨"write", "d", "s"⟩])]) "write" = some e
        ∧ e.name = "filesystem" ++ "_" ++ "write")
    ∧ findToolByName (buildCatalog [("filesystem", [⟨"write", "d", "s"⟩])]) "write"
        = some ("filesystem" ++ "_" ++ "write") :=
  C2_register_and_suffix_resolve [("filesystem", [⟨"write", "d", "s"⟩])] "filesystem"
    [⟨"write", "d", "s"⟩] ⟨"write", "d", "s"⟩ (by decide) (by decide) (by decide) (by decide)

/-- C3 counterexample: requested name files is a case-insensitive substring of the provider-prefix portion of filesystem_write but not of its final segment write (nor the other way round); the code's flexible strategy still matches, so it does match against the prefix portion, contrary to the claim. -/
theorem C3_counterexample :
    flexibleMatch [⟨"filesystem_write", "", ""⟩] "files" = some ⟨"filesystem_write", "", ""⟩
    ∧ flexiblePredSpec "files" ⟨"filesystem_write", "", ""⟩ = false := by
  decide

/-- C3 amended: the flexible strategy matches a catalog entry exactly when the requested name is a case-insensitive substring of the entry's whole effective name (provider prefix included), or the final segment is a case-insensitive substring of the requested name; it returns the first such entry in registration order. -/
theorem C3_flexible_whole_name (tools : List Tool) (baseName : String) :
    flexibleMatch tools baseName = tools.find? (flexiblePredAmended baseName)
    ∧ ∀ t : Tool, flexiblePred baseName t = flexiblePredAmended baseName t := by
  exact ⟨rfl, fun _ => rfl⟩

/-- C4 counterexample: providers a and a_b are distinct, each with locally unique tool names, yet because the id a_b contains the separator both registrations produce the effective name a_b_c, so the prefixed names are not pairwise distinct. -/
theorem C4_counterexample :
    ("a" : String) ≠ "a_b"
    ∧ (buildCatalog [("a", [⟨"b_c", "", ""⟩]), ("a_b", [⟨"c", "", ""⟩])]).map Tool.name
        = ["a_b_c", "a_b_c"]
    ∧ ¬ ((buildCatalog [("a", [⟨"b_c", "", ""⟩]), ("a_b", [⟨"c", "", ""⟩])]).map
          Tool.name).Nodup := by
  refine ⟨by decide, by decide, by decide⟩

/-- C4 amended: with pairwise-distinct provider ids that contain no separator character and locally unique tool names, the prefixed effective names are pairwise distinct across the whole catalog, independent of whether two providers expose identically-named tools. -/
theorem C4_prefixed_names_nodup :
    ∀ (servers : List (String × List Tool)),
      (servers.map Prod.fst).Nodup →
      (∀ pr ∈ servers, '_' ∉ pr.1.data) →
      (∀ pr ∈ servers, (pr.2.map Tool.name).Nodup) →
      ((buildCatalog servers).map Tool.name).Nodup := by
  intro servers
  induction servers with
  | nil => intro _ _ _; simp [buildCatalog]
  | cons pr rest ih =>
    intro hids hsep hlocal
    obtain ⟨p, ts⟩ := pr
    rw [buildCatalog_cons, List.map_append, List.nodup_append]
    have hpsep : '_' ∉ p.data := hsep (p, ts) (List.mem_cons_self _ _)
    have hids' : p ∉ rest.map Prod.fst ∧ (rest.map Prod.fst).Nodup := by
      rw [List.map_cons, List.nodup_cons] at hids
      exact hids
    refine ⟨?_, ?_, ?_⟩
    · have heq : (prefixTools p ts).map Tool.name
          = (ts.map Tool.name).map (fun n => p ++ "_" ++ n) := by
        simp [prefixTools, List.map_map]
      rw [heq]
      refine List.Nodup.map ?_ (hlocal (p, ts) (List.mem_cons_self _ _))
      intro a b hab
      exact append_sep_left_cancel hab
    · exact ih hids'.2 (fun q hq => hsep q (List.mem_cons_of_mem _ hq))
        (fun q hq => hlocal q (List.mem_cons_of_mem _ hq))
    · intro n hn1 hn2
      obtain ⟨x1, hx1, hxn1⟩ := List.mem_map.mp hn1
      obtain ⟨t1, ht1, he1⟩ := List.mem_map.mp hx1
      obtain ⟨x2, hx2, hxn2⟩ := List.mem_map.mp hn2
      obtain ⟨pr', hpr', t2, ht2, he2⟩ := buildCatalog_name_mem hx2
      have hq1 : n = p ++ "_" ++ t1.name := by rw [← hxn1, ← he1]
      have hq2 : n = pr'.1 ++ "_" ++ t2.name := by rw [← hxn2, he2]
      have hqsep : '_' ∉ pr'.1.data := hsep pr' (List.mem_cons_of_mem _ hpr')
      have hpq : p = pr'.1 := (append_sep_inj hpsep hqsep (hq1 ▸ hq2)).1
      exact hids'.1 (hpq ▸ List.mem_map_of_mem Prod.fst hpr')

/-- C4 witness: two separator-free providers exposing an identically-named tool write still yield pairwise-distinct effective names. -/
theorem C4_prefixed_names_nodup_witness :
    ((buildCatalog [("filesystem", [⟨"read", "", ""⟩, ⟨"write", "", ""⟩]),
        ("github", [⟨"write", "", ""⟩])]).map Tool.name).Nodup :=
  C4_prefixed_names_nodup
    [("filesystem", [⟨"read", "", ""⟩, ⟨"write", "", ""⟩]), ("github", [⟨"write", "", ""⟩])]
    (by decide) (by decide) (by decide)

/-- C10: the clear command resets ConversationHistory to the empty sequence in one step and leaves the provider clients, the transports, the tool catalog and the mode flag unchanged. -/
theorem C10_clear_only_history {H T : Type} (s : ClientState H T) (message : String)
    (h : lowerStr message = "clear") :
    chatStep s message = ChatAction.continueWith
      { mcpClients := s.mcpClients, transports := s.transports, allTools := s.allTools,
        conversationHistory := [], mode := s.mode } := by
  have hq : lowerStr message ≠ "quit" := by rw [h]; decide
  simp [chatStep, hq, h]

/-- C10 witness: the clear command (in any letter case) on a concrete client state empties only the conversation history. -/
theorem C10_clear_only_history_witness :
    chatStep
        (⟨[("filesystem", 1)], [("filesystem", 2)], [⟨"filesystem_write", "", ""⟩],
          [Turn.userText "hello"], Mode.multi⟩ : ClientState Nat Nat) "CLEAR"
      = ChatAction.continueWith
        ⟨[("filesystem", 1)], [("filesystem", 2)], [⟨"filesystem_write", "", ""⟩],
          [], Mode.multi⟩ :=
  C10_clear_only_history
    ⟨[("filesystem", 1)], [("filesystem", 2)], [⟨"filesystem_write", "", ""⟩],
      [Turn.userText "hello"], Mode.multi⟩ "CLEAR" (by decide)

/-- C1 counterexample: with no registered tools, the model's tool request with id t1 fails name resolution; the round records an error ToolOutcome for t1 but never appends any AssistantToolRequest turn, so the request is not recorded before (or after) resolution and the outcome's correlation id has no already-appended request turn. -/
theorem C1_counterexample :
    (processQuery
        (fun h => if h.length ≤ 1 then Except.ok [Block.toolUse "t1" "ghost" "a"]
          else Except.ok [])
        [] (fun _ _ => Except.ok ⟨"r"⟩) "q" []).2
      = [Turn.userText "q", Turn.toolResult "t1" "Error: Tool ghost not found" true]
    ∧ ((processQuery
        (fun h => if h.length ≤ 1 then Except.ok [Block.toolUse "t1" "ghost" "a"]
          else Except.ok [])
        [] (fun _ _ => Except.ok ⟨"r"⟩) "q" []).2.any
          (fun t => match t with | Turn.assistantToolUse _ _ _ => true | _ => false)) = false := by
  decide

/-- C1 amended: for every tool-request block, name resolution is attempted first; when it fails, no AssistantToolRequest turn is appended and a single error ToolOutcome carrying the block's id is appended instead; when it succeeds, the AssistantToolRequest turn is appended before dispatch and exactly one ToolOutcome with the same correlation id is appended immediately after it, whether dispatch succeeds or fails. -/
theorem C1_request_outcome_pairing (tools : List Tool)
    (dispatch : String → String → Except CallError ToolResult)
    (s : QState) (id name args : String) :
    (findToolByName tools name = none →
      (processBlock tools dispatch s (Block.toolUse id name args)).history
        = s.history ++ [Turn.toolResult id ("Error: Tool " ++ name ++ " not found") true])
    ∧ (∀ full, findToolByName tools name = some full →
      ∃ content isErr,
        (processBlock tools dispatch s (Block.toolUse id name args)).history
          = s.history
            ++ [Turn.assistantToolUse id name args, Turn.toolResult id content isErr]) := by
  constructor
  · intro h
    simp [processBlock, h]
  · intro full h
    cases hd : dispatch full args with
    | ok r => exact ⟨r.content, false, by simp [processBlock, h, hd]⟩
    | error e => exact ⟨"Error: " ++ errMessage e, true, by simp [processBlock, h, hd]⟩

/-- C1 witness: a failing resolution appends only the error outcome, and a successful resolution appends the request turn followed by exactly one outcome with the same id. -/
theorem C1_request_outcome_pairing_witness :
    ((processBlock [] (fun _ _ => Except.ok ⟨"r"⟩) ⟨[], ""⟩
        (Block.toolUse "t1" "ghost" "a")).history
      = [] ++ [Turn.toolResult "t1" "Error: Tool ghost not found" true])
    ∧ (∃ content isErr,
        (processBlock [⟨"echo", "", ""⟩] (fun _ _ => Except.ok ⟨"r"⟩) ⟨[], ""⟩
            (Block.toolUse "t2" "echo" "a")).history
          = [] ++ [Turn.assistantToolUse "t2" "echo" "a", Turn.toolResult "t2" content isErr]) :=
  ⟨(C1_request_outcome_pairing [] (fun _ _ => Except.ok ⟨"r"⟩) ⟨[], ""⟩ "t1" "ghost" "a").1
      (by decide),
   (C1_request_outcome_pairing [⟨"echo", "", ""⟩] (fun _ _ => Except.ok ⟨"r"⟩) ⟨[], ""⟩
      "t2" "echo" "a").2 "echo" (by decide)⟩

/-- C6: the query loop makes at most max = 3 model calls; a response without a tool-request block ends the loop right after its round with no truncation notice appended (after round 1 for a text-only first response); and when all three rounds contain a tool-request block, exactly 3 rounds run and the truncation notice is appended to the returned buffer. -/
theorem C6_loop_bound (model : List Turn → Except String (List Block)) (tools : List Tool)
    (dispatch : String → String → Except CallError ToolResult) (s0 : QState) :
    (runLoop model tools dispatch 3 s0).rounds ≤ 3
    ∧ (∀ b1, model s0.history = Except.ok b1 → hasToolUse b1 = false →
        runLoop model tools dispatch 3 s0 = ⟨processBlocks tools dispatch s0 b1, none, 1⟩)
    ∧ (∀ b1 b2 b3,
        model s0.history = Except.ok b1 → hasToolUse b1 = true →
        model (processBlocks tools dispatch s0 b1).history = Except.ok b2 →
        hasToolUse b2 = true →
        model (processBlocks tools dispatch (processBlocks tools dispatch s0 b1) b2).history
          = Except.ok b3 →
        hasToolUse b3 = true →
        runLoop model tools dispatch 3 s0 =
          ⟨{ processBlocks tools dispatch
                (processBlocks tools dispatch (processBlocks tools dispatch s0 b1) b2) b3 with
              buffer := (processBlocks tools dispatch
                  (processBlocks tools dispatch (processBlocks tools dispatch s0 b1) b2)
                  b3).buffer ++ "Maximum tool iterations reached." }, none, 3⟩) := by
  refine ⟨runLoop_rounds_le model tools dispatch 3 s0, ?_, ?_⟩
  · intro b1 h1 ht1
    simp [runLoop, h1, ht1]
  · intro b1 b2 b3 h1 ht1 h2 ht2 h3 ht3
    simp [runLoop, h1, ht1, h2, ht2, h3, ht3]

/-- C6 witness: a text-only first response terminates after round 1 without the notice; a model that always requests a tool runs exactly 3 rounds and the notice is appended. -/
theorem C6_loop_bound_witness :
    (runLoop (fun _ => Except.ok [Block.text "done"]) [] (fun _ _ => Except.ok ⟨"r"⟩) 3
        ⟨[Turn.userText "q"], ""⟩).rounds ≤ 3
    ∧ runLoop (fun _ => Except.ok [Block.text "done"]) [] (fun _ _ => Except.ok ⟨"r"⟩) 3
        ⟨[Turn.userText "q"], ""⟩
        = ⟨processBlocks [] (fun _ _ => Except.ok ⟨"r"⟩) ⟨[Turn.userText "q"], ""⟩
            [Block.text "done"], none, 1⟩
    ∧ runLoop (fun _ => Except.ok [Block.toolUse "i" "g" "a"]) [] (fun _ _ => Except.ok ⟨"r"⟩) 3
        ⟨[Turn.userText "q"], ""⟩
        = ⟨{ processBlocks [] (fun _ _ => Except.ok ⟨"r"⟩)
              (processBlocks [] (fun _ _ => Except.ok ⟨"r"⟩)
                (processBlocks [] (fun _ _ => Except.ok ⟨"r"⟩) ⟨[Turn.userText "q"], ""⟩
                  [Block.toolUse "i" "g" "a"])
                [Block.toolUse "i" "g" "a"])
              [Block.toolUse "i" "g" "a"] with
            buffer := (processBlocks [] (fun _ _ => Except.ok ⟨"r"⟩)
                (processBlocks [] (fun _ _ => Except.ok ⟨"r"⟩)
                  (processBlocks [] (fun _ _ => Except.ok ⟨"r"⟩) ⟨[Turn.userText "q"], ""⟩
                    [Block.toolUse "i" "g" "a"])
                  [Block.toolUse "i" "g" "a"])
                [Block.toolUse "i" "g" "a"]).buffer
              ++ "Maximum tool iterations reached." }, none, 3⟩ :=
  ⟨(C6_loop_bound (fun _ => Except.ok [Block.text "done"]) [] (fun _ _ => Except.ok ⟨"r"⟩)
      ⟨[Turn.userText "q"], ""⟩).1,
   (C6_loop_bound (fun _ => Except.ok [Block.text "done"]) [] (fun _ _ => Except.ok ⟨"r"⟩)
      ⟨[Turn.userText "q"], ""⟩).2.1 [Block.text "done"] rfl (by decide),
   (C6_loop_bound (fun _ => Except.ok [Block.toolUse "i" "g" "a"]) []
      (fun _ _ => Except.ok ⟨"r"⟩) ⟨[Turn.userText "q"], ""⟩).2.2
      [Block.toolUse "i" "g" "a"] [Block.toolUse "i" "g" "a"] [Block.toolUse "i" "g" "a"]
      rfl (by decide) rfl (by decide) rfl (by decide)⟩

/-- C7: when no strategy matches a requested name, findToolByName returns none as an ordinary value; the loop appends exactly one error ToolOutcome for that request and continues processing the remaining content blocks of the same response; and a query whose model calls all succeed never takes the fatal path, whatever the resolver returns. -/
theorem C7_notfound_nonfatal (tools : List Tool)
    (dispatch : String → String → Except CallError ToolResult)
    (s : QState) (id name args : String) (rest : List Block)
    (h : findToolByName tools name = none) :
    processBlocks tools dispatch s (Block.toolUse id name args :: rest)
      = processBlocks tools dispatch
          { history := s.history
              ++ [Turn.toolResult id ("Error: Tool " ++ name ++ " not found") true],
            buffer := s.buffer ++ "[Error: Tool " ++ name ++ " not found]\n" } rest
    ∧ ∀ (model : List Turn → Except String (List Block)) (fuel : Nat) (s' : QState),
        (∀ hst, ∃ bs, model hst = Except.ok bs) →
        (runLoop model tools dispatch fuel s').modelError = none := by
  constructor
  · rw [processBlocks_cons]
    congr 1
    simp [processBlock, h]
  · intro model fuel s' hm
    exact runLoop_ok_of_model_ok model tools dispatch hm fuel s'

/-- C7 witness: the unregistered tool delete_universe resolves to none on the scenario catalog, the loop records one error outcome and still processes the following text block, and a query with successful model calls does not fail. -/
theorem C7_notfound_nonfatal_witness :
    processBlocks (buildCatalog [("filesystem", [⟨"write_file", "", ""⟩])])
        (fun _ _ => Except.ok ⟨"r"⟩) ⟨[], ""⟩
        (Block.toolUse "t1" "delete_universe" "a" :: [Block.text "after"])
      = processBlocks (buildCatalog [("filesystem", [⟨"write_file", "", ""⟩])])
          (fun _ _ => Except.ok ⟨"r"⟩)
          { history := ([] : List Turn)
              ++ [Turn.toolResult "t1" ("Error: Tool " ++ "delete_universe" ++ " not found") true],
            buffer := "" ++ "[Error: Tool " ++ "delete_universe" ++ " not found]\n" }
          [Block.text "after"]
    ∧ (runLoop (fun _ => Except.ok []) (buildCatalog [("filesystem", [⟨"write_file", "", ""⟩])])
        (fun _ _ => Except.ok ⟨"r"⟩) 3 ⟨[], ""⟩).modelError = none := by
  have h := C7_notfound_nonfatal (buildCatalog [("filesystem", [⟨"write_file", "", ""⟩])])
    (fun _ _ => Except.ok ⟨"r"⟩) ⟨[], ""⟩ "t1" "delete_universe" "a" [Block.text "after"]
    (by decide)
  exact ⟨h.1, h.2 (fun _ => Except.ok []) 3 ⟨[], ""⟩ (fun _ => ⟨[], rfl⟩)⟩

/-- C8: a model failure aborts only the current query: processQuery returns the plain-text error string, and the history it returns is exactly the history at the failing model call; it contains the query's UserText turn and extends the pre-query history followed by the user turn, so no turn appended before the failing call is rolled back. -/
theorem C8_model_failure_no_rollback (model : List Turn → Except String (List Block))
    (tools : List Tool) (dispatch : String → String → Except CallError ToolResult)
    (query : String) (history0 : List Turn) (e : String)
    (h : (runLoop model tools dispatch 3
        { history := history0 ++ [Turn.userText query], buffer := "" }).modelError = some e) :
    (processQuery model tools dispatch query history0).1
      = "Sorry, I encountered an error: " ++ e
    ∧ (processQuery model tools dispatch query history0).2
        = (runLoop model tools dispatch 3
            { history := history0 ++ [Turn.userText query], buffer := "" }).state.history
    ∧ model (processQuery model tools dispatch query history0).2 = Except.error e
    ∧ (∃ tail, (processQuery model tools dispatch query history0).2
        = (history0 ++ [Turn.userText query]) ++ tail)
    ∧ Turn.userText query ∈ (processQuery model tools dispatch query history0).2 := by
  have hq : processQuery model tools dispatch query history0
      = ("Sorry, I encountered an error: " ++ e,
         (runLoop model tools dispatch 3
            { history := history0 ++ [Turn.userText query], buffer := "" }).state.history) := by
    simp [processQuery, h]
  obtain ⟨tail, htail⟩ := runLoop_history model tools dispatch 3
    { history := history0 ++ [Turn.userText query], buffer := "" }
  refine ⟨by rw [hq], by rw [hq], ?_, ?_, ?_⟩
  · rw [hq]
    exact runLoop_error_state model tools dispatch 3 _ e h
  · rw [hq]
    exact ⟨tail, htail⟩
  · rw [hq, htail]
    simp

/-- C8 witness: a model that fails immediately yields the plain-text error string while the history keeps the user turn. -/
theorem C8_model_failure_no_rollback_witness :
    (processQuery (fun _ => Except.error "boom") [] (fun _ _ => Except.ok ⟨"r"⟩) "hi" []).1
      = "Sorry, I encountered an error: " ++ "boom"
    ∧ Turn.userText "hi"
        ∈ (processQuery (fun _ => Except.error "boom") [] (fun _ _ => Except.ok ⟨"r"⟩)
            "hi" []).2 :=
  ⟨(C8_model_failure_no_rollback (fun _ => Except.error "boom") []
      (fun _ _ => Except.ok ⟨"r"⟩) "hi" [] "boom" (by decide)).1,
   (C8_model_failure_no_rollback (fun _ => Except.error "boom") []
      (fun _ _ => Except.ok ⟨"r"⟩) "hi" [] "boom" (by decide)).2.2.2.2⟩

/-- C9 witness: a catalog entry whose name plainname has no separator resolves exactly, multi-mode dispatch rejects it with the invalid-format error, and the loop records it as a per-call error outcome and keeps going. -/
theorem C9_invalid_format_per_call_witness :
    callTool Mode.multi ["filesystem"] (fun _ _ _ => ⟨"r"⟩) "plainname" "a"
      = Except.error (CallError.invalidFormat "plainname")
    ∧ processBlocks [⟨"plainname", "", ""⟩] (callTool Mode.multi ["filesystem"]
          (fun _ _ _ => ⟨"r"⟩)) ⟨[], ""⟩
        (Block.toolUse "t9" "plainname" "a" :: [])
      = processBlocks [⟨"plainname", "", ""⟩] (callTool Mode.multi ["filesystem"]
          (fun _ _ _ => ⟨"r"⟩))
          { history := ([] : List Turn)
              ++ [Turn.assistantToolUse "t9" "plainname" "a",
                Turn.toolResult "t9"
                  ("Error: " ++ errMessage (CallError.invalidFormat "plainname")) true],
            buffer := ""
              ++ "[Tool error: " ++ errMessage (CallError.invalidFormat "plainname") ++ "]\n" }
          []
    ∧ (runLoop (fun _ => Except.ok []) [⟨"plainname", "", ""⟩]
        (callTool Mode.multi ["filesystem"] (fun _ _ _ => ⟨"r"⟩)) 3 ⟨[], ""⟩).modelError
      = none := by
  have h := C9_invalid_format_per_call ["filesystem"] (fun _ _ _ => ⟨"r"⟩) "plainname" "a"
    (by decide)
  exact ⟨h.1,
    h.2.1 [⟨"plainname", "", ""⟩] ⟨[], ""⟩ "t9" "plainname" [] (by decide),
    h.2.2 [⟨"plainname", "", ""⟩] (fun _ => Except.ok []) 3 ⟨[], ""⟩ (fun _ => ⟨[], rfl⟩)⟩

end MCPClient
